import Mathlib

/-!
Shallow embedding of `src/system.rs` of the `world_dispatcher` crate.

Resource types are identified by natural numbers; each resource instance
carries a natural-number value together with the interior borrow counters of
its registry slot (number of outstanding shared borrows, and whether an
exclusive borrow is outstanding).  The `World` (the Registry) maps a type id
to its slot, if the resource has been inserted.

The parts of the crate that live outside `src/system.rs` (the `World` type
with `initialize`, `get`, `get_mut`, its borrow counting, and the error
types) are modelled from the spec, as marked on each definition.
-/

namespace WorldDispatcher

/-- One registry slot: the resource's value together with its interior
borrow counters (RefCell-style: a count of shared borrows and an
exclusive-borrow flag). -/
structure Slot where
  value : Nat
  shared : Nat
  exclusive : Bool
deriving DecidableEq

/-- The Registry ("World"): a map from resource type id to its slot. -/
abbrev World := Nat → Option Slot

/-- Modelled from the spec: the error taxonomy of resource acquisition
(`AccessError::NotInitialized`, `AccessError::Conflict`); the `AccessError`
type is not part of `src/system.rs`. -/
inductive AccessError where
  | notInitialized (t : Nat)
  | conflict (t : Nat)
deriving DecidableEq

/-- Modelled from the spec: `RunError` distinguishes an acquisition failure
from an application error raised by the wrapped function; the result type of
`run` is not part of `src/system.rs`. -/
inductive RunError where
  | acquisition (e : AccessError)
  | application (e : Nat)
deriving DecidableEq

/-- An acquired handle: shared or exclusive access to one resource type.
Models the `Box<dyn RefLifetime>` values pushed by `lock`. -/
inductive Handle where
  | shared (t : Nat)
  | exclusive (t : Nat)
deriving DecidableEq

/-- Replace the slot of type `t`. -/
def World.setSlot (w : World) (t : Nat) (s : Slot) : World :=
  fun x => if x = t then some s else w x

/-- Modelled from the spec: `World::initialize::<T>` (ensure_default) —
insert a default-constructed instance if the type is absent, never
overwriting an existing one.  Default values are encoded as `0`. -/
def World.initResource (w : World) (t : Nat) : World :=
  match w t with
  | some _ => w
  | none => w.setSlot t ⟨0, 0, false⟩

/-- Modelled from the spec: `World::get::<T>` (try_acquire_shared) — fail if
the type is absent or exclusively borrowed, otherwise increment the shared
borrow count.  Returns the registry with the updated counter. -/
def World.get (w : World) (t : Nat) : Except AccessError World :=
  match w t with
  | none => .error (.notInitialized t)
  | some s =>
      if s.exclusive then .error (.conflict t)
      else .ok (w.setSlot t ⟨s.value, s.shared + 1, s.exclusive⟩)

/-- Modelled from the spec: `World::get_mut::<T>` (try_acquire_exclusive) —
fail if the type is absent or borrowed in any way, otherwise set the
exclusive flag. -/
def World.get_mut (w : World) (t : Nat) : Except AccessError World :=
  match w t with
  | none => .error (.notInitialized t)
  | some s =>
      if s.exclusive || s.shared != 0 then .error (.conflict t)
      else .ok (w.setSlot t ⟨s.value, s.shared, true⟩)

/-- Modelled from the spec: dropping a shared handle decrements the shared
borrow count of its slot. -/
def World.releaseShared (w : World) (t : Nat) : World :=
  match w t with
  | none => w
  | some s => w.setSlot t ⟨s.value, s.shared - 1, s.exclusive⟩

/-- Modelled from the spec: dropping an exclusive handle clears the
exclusive-borrow flag of its slot. -/
def World.releaseExclusive (w : World) (t : Nat) : World :=
  match w t with
  | none => w
  | some s => w.setSlot t ⟨s.value, s.shared, false⟩

/-- Dropping one handle releases its borrow. -/
def Handle.release (h : Handle) (w : World) : World :=
  match h with
  | .shared t => w.releaseShared t
  | .exclusive t => w.releaseExclusive t

/-- Dropping a collection of handles, last-acquired first (Rust drops the
temporaries of an expression in reverse order of construction). -/
def releaseAll (hs : List Handle) (w : World) : World :=
  hs.foldr Handle.release w

/-- The values currently held by the given resource types (absent types read
as default `0`; every use below is guarded by a successful acquisition). -/
def readValues (w : World) (ts : List Nat) : List Nat :=
  ts.map fun t => ((w t).getD ⟨0, 0, false⟩).value

/-- Store a new value in the slot of type `t` (what a write through an
exclusive handle does); borrow counters are untouched. -/
def World.setValue (w : World) (t : Nat) (v : Nat) : World :=
  match w t with
  | none => w
  | some s => w.setSlot t ⟨v, s.shared, s.exclusive⟩

/-- Write the function's final values of the write parameters back into the
registry, in declaration order. -/
def writeBack (w : World) : List Nat → List Nat → World
  | t :: ts, v :: vs => writeBack (w.setValue t v) ts vs
  | _, _ => w

/-- A wrapped function, purified: from the values of its read parameters and
the initial values of its write parameters it produces the final values of
the write parameters together with an optional application error (its
`SystemResult`). -/
abbrev SysFun := List Nat → List Nat → List Nat × Option Nat

/-- The `lock` loop over the read parameters:
`$(unsafe {(&mut *_locked).push(Box::new((*_world).get::<$id>()?))};)*` —
each successful shared acquisition pushes a handle onto the caller's vector;
the first failure returns the error at once, with the vector and the borrow
counters exactly as they stand. -/
def lockReads : List Nat → World → List Handle → World × List Handle × Option AccessError
  | [], w, locked => (w, locked, none)
  | t :: ts, w, locked =>
      match World.get w t with
      | .error e => (w, locked, some e)
      | .ok w' => lockReads ts w' (locked ++ [Handle.shared t])

/-- The `lock` loop over the write parameters:
`$(unsafe {(&mut *_locked).push(Box::new((*_world).get_mut::<$idmut>()?))};)*`. -/
def lockWrites : List Nat → World → List Handle → World × List Handle × Option AccessError
  | [], w, locked => (w, locked, none)
  | t :: ts, w, locked =>
      match World.get_mut w t with
      | .error e => (w, locked, some e)
      | .ok w' => lockWrites ts w' (locked ++ [Handle.exclusive t])

/-- The body of the generated `lock` closure: all read parameters first,
then all write parameters; a failure among the reads skips the writes. -/
def lockAll (rs ws : List Nat) (w : World) (locked : List Handle) :
    World × List Handle × Option AccessError :=
  match lockReads rs w locked with
  | (w1, l1, none) => lockWrites ws w1 l1
  | (w1, l1, some e) => (w1, l1, some e)

/-- The body of the generated `run_fn` closure:
`self($(&*_world.get::<$id>()?,)* $(&mut *_world.get_mut::<$idmut>()?),*)` —
acquire every parameter in declaration order (the same acquisition sequence
as `lock`, held in temporaries instead of a vector); on failure the
temporaries acquired so far are dropped and the error is returned; on
success the function is applied to the referenced values, writes through the
exclusive references are stored, and all temporaries are dropped. -/
def runSystem (rs ws : List Nat) (f : SysFun) (w : World) : World × Option RunError :=
  match lockAll rs ws w [] with
  | (w1, hs, some e) => (releaseAll hs w1, some (RunError.acquisition e))
  | (w1, hs, none) =>
      let out := f (readValues w1 rs) (readValues w1 ws)
      (releaseAll hs (writeBack w1 ws out.1), out.2.map RunError.application)

/-- The `System` struct of `src/system.rs`: the three generated operations
plus the diagnostic name.  (`init` embeds the `initialize` field.) -/
structure System where
  init : World → World
  lock : World → List Handle → World × List Handle × Option AccessError
  run_fn : World → World × Option RunError
  name : String

/-- `System::run` calls the stored `run_fn`. -/
def System.run (s : System) (w : World) : World × Option RunError :=
  s.run_fn w

/-- What one `impl_system!` expansion generates for the shape with read
parameter types `rs` and write parameter types `ws` (in declaration order):
the `IntoSystem::system` conversion of a function of that shape. -/
def mkSystem (rs ws : List Nat) (f : SysFun) (nm : String) : System where
  init := fun w => ws.foldl World.initResource (rs.foldl World.initResource w)
  lock := fun w locked => lockAll rs ws w locked
  run_fn := fun w => runSystem rs ws f w
  name := nm

/-- A declared access request: shared access ("read") or exclusive access
("write") to one resource type.  This is the spec's `AccessRequest`. -/
inductive AccessReq where
  | read (t : Nat)
  | write (t : Nat)
deriving DecidableEq

/-- The resource type an access request targets. -/
def reqTarget : AccessReq → Nat
  | .read t => t
  | .write t => t

/-- The handle a satisfied access request yields. -/
def reqHandle : AccessReq → Handle
  | .read t => Handle.shared t
  | .write t => Handle.exclusive t

/-- Issue one access request against the registry. -/
def reqStep (r : AccessReq) (w : World) : Except AccessError (World × Handle) :=
  match r with
  | .read t =>
      match w.get t with
      | .error e => .error e
      | .ok w' => .ok (w', Handle.shared t)
  | .write t =>
      match w.get_mut t with
      | .error e => .error e
      | .ok w' => .ok (w', Handle.exclusive t)

/-- Issue a sequence of access requests in order, pushing each obtained
handle onto the vector, stopping at the first failure.  This is the
spec-side description of the acquisition loop, compared against the
generated `lock` body below. -/
def lockSeq : List AccessReq → World → List Handle → World × List Handle × Option AccessError
  | [], w, locked => (w, locked, none)
  | r :: rest, w, locked =>
      match reqStep r w with
      | .error e => (w, locked, some e)
      | .ok (w', h) => lockSeq rest w' (locked ++ [h])

/-- The borrow-relevant view of one registry slot: presence, shared count and
exclusive flag (the value is ignored). -/
def borrowView (w : World) (t : Nat) : Option (Nat × Bool) :=
  (w t).map fun s => (s.shared, s.exclusive)

/-- The resource of type `t` is present and carries no outstanding borrow. -/
def freeB (w : World) (t : Nat) : Bool :=
  match w t with
  | none => false
  | some s => s.shared == 0 && !s.exclusive

/-! ### The macro expansion

`impl_system_muts!` and `impl_systems!` of `src/system.rs`, embedded as
generators of the list of parameter shapes (read ident list, write ident
list) for which an `IntoSystem` implementation is emitted. -/

/-- `impl_system_muts!($(processed),*; $(rem),*)`: with no remaining idents
it emits `impl_system!($(&mut processed,)*)`; otherwise, for `rem = head ::
tail`, it emits `impl_system!($(tail,)* head, $(&mut processed,)*)` and
recurses with `processed ++ [head]` and `tail`. -/
def implSystemMuts : List String → List String → List (List String × List String)
  | processed, [] => [([], processed)]
  | processed, head :: tail =>
      (tail ++ [head], processed) :: implSystemMuts (processed ++ [head]) tail

/-- `impl_systems!($(idents),*)`: for a nonempty ident list it invokes
`impl_system_muts!(; idents)` and recurses on the tail. -/
def implSystems : List String → List (List String × List String)
  | [] => []
  | head :: tail => implSystemMuts [] (head :: tail) ++ implSystems tail

/-- All emitted shapes: the standalone `impl_system!()` (the zero-parameter
implementation) followed by the expansion of `impl_systems!`. -/
def allShapes (idents : List String) : List (List String × List String) :=
  ([], []) :: implSystems idents

/-- The ident list of the default (non-`big_systems`) invocation,
`impl_systems!(A, B, C, D, E, G, H, I, J, K, L, M,)`. -/
def identList12 : List String :=
  ["A", "B", "C", "D", "E", "G", "H", "I", "J", "K", "L", "M"]

/-- The ident list of the `big_systems` invocation,
`impl_systems!(A, B, C, D, E, G, H, I, J, K, L, M, O, P, Q, R, S, T, U, V, W,)`. -/
def identListBig : List String :=
  ["A", "B", "C", "D", "E", "G", "H", "I", "J", "K", "L", "M",
   "O", "P", "Q", "R", "S", "T", "U", "V", "W"]

/-! ### Concrete registries used in scenarios and witnesses -/

/-- The registry of the spec's scenario: type 0 is `A` (default), type 1 is
`B` with field `x = 0`; both unborrowed, nothing else present. -/
def scenarioWorld : World := fun t => if t < 2 then some ⟨0, 0, false⟩ else none

/-- A registry holding only resource type 0 (value 7, unborrowed); type 1
was never inserted, so acquiring it fails. -/
def cexWorld : World := fun t => if t = 0 then some ⟨7, 0, false⟩ else none

/-- `cexWorld` after a successful shared acquisition of type 0. -/
def cexW1 : World := cexWorld.setSlot 0 ⟨7, 1, false⟩

/-- A registry holding only resource type 5, with outstanding borrows. -/
def w6 : World := fun t => if t = 5 then some ⟨9, 2, true⟩ else none

/-- A registry holding types 0 and 1 (value 3, unborrowed). -/
def w9 : World := fun t => if t < 2 then some ⟨3, 0, false⟩ else none

/-! ### Basic lemmas about slot updates and acquisition steps -/

@[simp]
lemma setSlot_self (w : World) (t : Nat) (s : Slot) : (w.setSlot t s) t = some s := by
  simp [World.setSlot]

lemma setSlot_ne (w : World) (t : Nat) (s : Slot) {x : Nat} (h : x ≠ t) :
    (w.setSlot t s) x = w x := by
  simp [World.setSlot, h]

lemma setSlot_setSlot (w : World) (t : Nat) (s1 s2 : Slot) :
    (w.setSlot t s1).setSlot t s2 = w.setSlot t s2 := by
  funext x
  by_cases h : x = t <;> simp [World.setSlot, h]

lemma setSlot_eq_self {w : World} {t : Nat} {s : Slot} (h : w t = some s) :
    w.setSlot t s = w := by
  funext x
  by_cases hx : x = t
  · subst hx; simp [World.setSlot, h]
  · simp [World.setSlot, hx]

/-- Inversion for a successful shared acquisition. -/
lemma World.get_ok {w : World} {t : Nat} {wg : World} (hg : World.get w t = .ok wg) :
    ∃ s, w t = some s ∧ s.exclusive = false ∧
      wg = w.setSlot t ⟨s.value, s.shared + 1, s.exclusive⟩ := by
  unfold World.get at hg
  split at hg
  · cases hg
  · rename_i s hw
    split at hg
    · cases hg
    · rename_i hex
      cases hg
      exact ⟨s, hw, by simpa using hex, rfl⟩

/-- Inversion for a successful exclusive acquisition. -/
lemma World.get_mut_ok {w : World} {t : Nat} {wg : World} (hg : World.get_mut w t = .ok wg) :
    ∃ s, w t = some s ∧ s.exclusive = false ∧ s.shared = 0 ∧
      wg = w.setSlot t ⟨s.value, s.shared, true⟩ := by
  unfold World.get_mut at hg
  split at hg
  · cases hg
  · rename_i s hw
    split at hg
    · cases hg
    · rename_i hcond
      cases hg
      have h1 : s.exclusive = false ∧ s.shared = 0 := by
        simpa using hcond
      exact ⟨s, hw, h1.1, h1.2, rfl⟩

/-- A free (present, unborrowed) resource. -/
lemma freeB_elim {w : World} {t : Nat} (h : freeB w t = true) :
    ∃ v, w t = some ⟨v, 0, false⟩ := by
  unfold freeB at h
  split at h
  · cases h
  · rename_i s hw
    rw [Bool.and_eq_true, beq_iff_eq, Bool.not_eq_true'] at h
    refine ⟨s.value, ?_⟩
    rw [hw]
    cases s
    simp_all

/-- Shared acquisition succeeds on a free resource. -/
lemma get_of_free {w : World} {t : Nat} {v : Nat} (h : w t = some ⟨v, 0, false⟩) :
    World.get w t = .ok (w.setSlot t ⟨v, 1, false⟩) := by
  unfold World.get
  rw [h]
  simp

/-- Exclusive acquisition succeeds on a free resource. -/
lemma get_mut_of_free {w : World} {t : Nat} {v : Nat} (h : w t = some ⟨v, 0, false⟩) :
    World.get_mut w t = .ok (w.setSlot t ⟨v, 0, true⟩) := by
  unfold World.get_mut
  rw [h]
  simp

/-- Releasing a shared handle undoes the corresponding acquisition. -/
lemma get_release {w : World} {t : Nat} {wg : World} (hg : World.get w t = .ok wg) :
    wg.releaseShared t = w := by
  obtain ⟨s, hs, _, hwg⟩ := World.get_ok hg
  subst hwg
  unfold World.releaseShared
  rw [setSlot_self]
  dsimp only
  rw [setSlot_setSlot]
  simpa using setSlot_eq_self hs

/-- Releasing an exclusive handle undoes the corresponding acquisition. -/
lemma get_mut_release {w : World} {t : Nat} {wg : World} (hg : World.get_mut w t = .ok wg) :
    wg.releaseExclusive t = w := by
  obtain ⟨s, hs, hex, _, hwg⟩ := World.get_mut_ok hg
  subst hwg
  unfold World.releaseExclusive
  rw [setSlot_self]
  dsimp only
  rw [setSlot_setSlot]
  have h2 : (⟨s.value, s.shared, false⟩ : Slot) = s := by cases s; simp_all
  rw [h2]
  exact setSlot_eq_self hs

/-- A successful acquisition step yields the handle of its request. -/
lemma reqStep_ok_handle {r : AccessReq} {w w' : World} {h : Handle}
    (hstep : reqStep r w = .ok (w', h)) : h = reqHandle r := by
  cases r with
  | read t =>
    simp only [reqStep] at hstep
    cases hg : World.get w t with
    | error e => rw [hg] at hstep; cases hstep
    | ok wg => rw [hg] at hstep; cases hstep; rfl
  | write t =>
    simp only [reqStep] at hstep
    cases hg : World.get_mut w t with
    | error e => rw [hg] at hstep; cases hstep
    | ok wg => rw [hg] at hstep; cases hstep; rfl

/-- Releasing the handle of a successful acquisition step restores the
registry exactly. -/
lemma reqStep_restore {r : AccessReq} {w w' : World} {h : Handle}
    (hstep : reqStep r w = .ok (w', h)) : Handle.release h w' = w := by
  cases r with
  | read t =>
    simp only [reqStep] at hstep
    cases hg : World.get w t with
    | error e => rw [hg] at hstep; cases hstep
    | ok wg =>
      rw [hg] at hstep
      cases hstep
      exact get_release hg
  | write t =>
    simp only [reqStep] at hstep
    cases hg : World.get_mut w t with
    | error e => rw [hg] at hstep; cases hstep
    | ok wg =>
      rw [hg] at hstep
      cases hstep
      exact get_mut_release hg

/-! ### Lemmas about the acquisition loop -/

/-- The generated read loop issues plain shared requests in list order. -/
lemma lockReads_eq_lockSeq (ts : List Nat) :
    ∀ w locked, lockReads ts w locked = lockSeq (ts.map AccessReq.read) w locked := by
  induction ts with
  | nil => intro w locked; rfl
  | cons t ts ih =>
    intro w locked
    simp only [List.map_cons, lockReads, lockSeq, reqStep]
    cases hg : World.get w t with
    | error e => rfl
    | ok w' => exact ih w' (locked ++ [Handle.shared t])

/-- The generated write loop issues plain exclusive requests in list order. -/
lemma lockWrites_eq_lockSeq (ts : List Nat) :
    ∀ w locked, lockWrites ts w locked = lockSeq (ts.map AccessReq.write) w locked := by
  induction ts with
  | nil => intro w locked; rfl
  | cons t ts ih =>
    intro w locked
    simp only [List.map_cons, lockWrites, lockSeq, reqStep]
    cases hg : World.get_mut w t with
    | error e => rfl
    | ok w' => exact ih w' (locked ++ [Handle.exclusive t])

/-- Issuing a concatenation of request sequences runs the second part from
the state the first part reaches, unless the first part failed. -/
lemma lockSeq_append (xs ys : List AccessReq) :
    ∀ w locked,
      lockSeq (xs ++ ys) w locked =
        match lockSeq xs w locked with
        | (w1, l1, none) => lockSeq ys w1 l1
        | (w1, l1, some e) => (w1, l1, some e) := by
  induction xs with
  | nil => intro w locked; rfl
  | cons r xs ih =>
    intro w locked
    simp only [List.cons_append, lockSeq]
    cases hr : reqStep r w with
    | error e => rfl
    | ok p => exact ih p.1 (locked ++ [p.2])

/-- The generated `lock` body equals the sequential issuing of the declared
request list: all reads in order, then all writes in order. -/
lemma lockAll_eq_lockSeq (rs ws : List Nat) (w : World) (locked : List Handle) :
    lockAll rs ws w locked =
      lockSeq (rs.map AccessReq.read ++ ws.map AccessReq.write) w locked := by
  rw [lockSeq_append, ← lockReads_eq_lockSeq]
  unfold lockAll
  cases h : lockReads rs w locked with
  | mk w1 p =>
    cases p with
    | mk l1 r =>
      cases r with
      | none => exact lockWrites_eq_lockSeq ws w1 l1
      | some e => rfl

/-- The handle vector is only ever appended to: the result of the loop is
the initial vector followed by the handles this call acquired, and neither
the final registry nor the error depends on the initial vector. -/
lemma lockSeq_acc (reqs : List AccessReq) :
    ∀ w locked,
      lockSeq reqs w locked =
        ((lockSeq reqs w []).1, locked ++ (lockSeq reqs w []).2.1,
          (lockSeq reqs w []).2.2) := by
  induction reqs with
  | nil => intro w locked; simp [lockSeq]
  | cons r rest ih =>
    intro w locked
    simp only [lockSeq]
    cases hr : reqStep r w with
    | error e => simp
    | ok p =>
      obtain ⟨w', h⟩ := p
      dsimp only
      rw [ih w' (locked ++ [h]), ih w' ([] ++ [h])]
      simp

/-- On success the loop appends exactly the handle of every request, in
request order. -/
lemma lockSeq_success_handles (reqs : List AccessReq) :
    ∀ w locked, (lockSeq reqs w locked).2.2 = none →
      (lockSeq reqs w locked).2.1 = locked ++ reqs.map reqHandle := by
  induction reqs with
  | nil => intro w locked _; simp [lockSeq]
  | cons r rest ih =>
    intro w locked hnone
    simp only [lockSeq] at hnone ⊢
    cases hr : reqStep r w with
    | error e => rw [hr] at hnone; simp at hnone
    | ok p =>
      rw [hr] at hnone
      have hh : p.2 = reqHandle r := reqStep_ok_handle (show reqStep r w = Except.ok (p.1, p.2) by rw [hr])
      rw [ih p.1 (locked ++ [p.2]) hnone, hh]
      simp

/-- Releasing the handles acquired by the loop (in reverse order of
acquisition) restores the registry exactly — whether or not the loop
failed part-way. -/
lemma lockSeq_restore (reqs : List AccessReq) :
    ∀ w locked w' l' r, lockSeq reqs w locked = (w', l', r) →
      ∃ hs, l' = locked ++ hs ∧ releaseAll hs w' = w := by
  induction reqs with
  | nil =>
    intro w locked w' l' r h
    cases h
    exact ⟨[], by simp, rfl⟩
  | cons q rest ih =>
    intro w locked w' l' r h
    simp only [lockSeq] at h
    cases hq : reqStep q w with
    | error e =>
      rw [hq] at h
      cases h
      exact ⟨[], by simp, rfl⟩
    | ok p =>
      rw [hq] at h
      obtain ⟨hs, hl, hrel⟩ := ih p.1 (locked ++ [p.2]) w' l' r h
      refine ⟨p.2 :: hs, by simpa using hl, ?_⟩
      show Handle.release p.2 (releaseAll hs w') = w
      rw [hrel]
      exact reqStep_restore (show reqStep q w = Except.ok (p.1, p.2) by rw [hq])

/-! ### Preservation of values by acquisition; borrow-view congruence -/

/-- A successful acquisition step changes borrow counters only, never a
resource's value or presence. -/
lemma reqStep_value {r : AccessReq} {w w' : World} {h : Handle}
    (hstep : reqStep r w = .ok (w', h)) (x : Nat) :
    (w' x).map Slot.value = (w x).map Slot.value := by
  cases r with
  | read t =>
    simp only [reqStep] at hstep
    cases hg : World.get w t with
    | error e => rw [hg] at hstep; cases hstep
    | ok wg =>
      rw [hg] at hstep
      cases hstep
      obtain ⟨s, hs, _, hwg⟩ := World.get_ok hg
      subst hwg
      by_cases hx : x = t
      · subst hx; rw [setSlot_self, hs]; simp
      · rw [setSlot_ne _ _ _ hx]
  | write t =>
    simp only [reqStep] at hstep
    cases hg : World.get_mut w t with
    | error e => rw [hg] at hstep; cases hstep
    | ok wg =>
      rw [hg] at hstep
      cases hstep
      obtain ⟨s, hs, _, _, hwg⟩ := World.get_mut_ok hg
      subst hwg
      by_cases hx : x = t
      · subst hx; rw [setSlot_self, hs]; simp
      · rw [setSlot_ne _ _ _ hx]

/-- The whole acquisition loop preserves every resource's value. -/
lemma lockSeq_values (reqs : List AccessReq) :
    ∀ w locked x, ((lockSeq reqs w locked).1 x).map Slot.value = (w x).map Slot.value := by
  induction reqs with
  | nil => intro w locked x; rfl
  | cons r rest ih =>
    intro w locked x
    simp only [lockSeq]
    cases hr : reqStep r w with
    | error e => rfl
    | ok p =>
      obtain ⟨w', h⟩ := p
      dsimp only
      rw [ih w' (locked ++ [h]) x]
      exact reqStep_value hr x

/-- Writing a value back touches no borrow counter. -/
lemma setValue_bv (w : World) (t v : Nat) (x : Nat) :
    borrowView (w.setValue t v) x = borrowView w x := by
  unfold World.setValue
  split
  · rfl
  · rename_i s hw
    by_cases hx : x = t
    · subst hx
      unfold borrowView
      rw [setSlot_self, hw]
      simp
    · unfold borrowView
      rw [setSlot_ne _ _ _ hx]

/-- Writing back a list of values touches no borrow counter. -/
lemma writeBack_bv (ts : List Nat) :
    ∀ vs w x, borrowView (writeBack w ts vs) x = borrowView w x := by
  induction ts with
  | nil => intro vs w x; cases vs <;> rfl
  | cons t ts ih =>
    intro vs w x
    cases vs with
    | nil => rfl
    | cons v vs =>
      show borrowView (writeBack (w.setValue t v) ts vs) x = borrowView w x
      rw [ih vs (w.setValue t v) x, setValue_bv]

/-- Case split along an equality of borrow views at one type. -/
lemma bv_cases {w w' : World} (h : ∀ x, borrowView w x = borrowView w' x) (t : Nat) :
    (w t = none ∧ w' t = none) ∨
      ∃ s s', w t = some s ∧ w' t = some s' ∧
        s.shared = s'.shared ∧ s.exclusive = s'.exclusive := by
  have ht := h t
  unfold borrowView at ht
  cases hw : w t with
  | none =>
    cases hw' : w' t with
    | none => exact .inl ⟨rfl, rfl⟩
    | some s' => rw [hw, hw'] at ht; simp at ht
  | some s =>
    cases hw' : w' t with
    | none => rw [hw, hw'] at ht; simp at ht
    | some s' =>
      rw [hw, hw'] at ht
      simp at ht
      exact .inr ⟨s, s', rfl, rfl, ht.1, ht.2⟩

/-- Releasing one handle acts the same way on two registries with the same
borrow view. -/
lemma release_bv_congr {w w' : World} (h : ∀ x, borrowView w x = borrowView w' x)
    (hd : Handle) (x : Nat) :
    borrowView (Handle.release hd w) x = borrowView (Handle.release hd w') x := by
  cases hd with
  | shared t =>
    show borrowView (w.releaseShared t) x = borrowView (w'.releaseShared t) x
    unfold World.releaseShared
    rcases bv_cases h t with ⟨hw, hw'⟩ | ⟨s, s', hw, hw', hsh, hex⟩
    · rw [hw, hw']; exact h x
    · rw [hw, hw']
      dsimp only
      by_cases hx : x = t
      · subst hx
        unfold borrowView
        rw [setSlot_self, setSlot_self]
        simp [hsh, hex]
      · unfold borrowView
        rw [setSlot_ne _ _ _ hx, setSlot_ne _ _ _ hx]
        exact h x
  | exclusive t =>
    show borrowView (w.releaseExclusive t) x = borrowView (w'.releaseExclusive t) x
    unfold World.releaseExclusive
    rcases bv_cases h t with ⟨hw, hw'⟩ | ⟨s, s', hw, hw', hsh, hex⟩
    · rw [hw, hw']; exact h x
    · rw [hw, hw']
      dsimp only
      by_cases hx : x = t
      · subst hx
        unfold borrowView
        rw [setSlot_self, setSlot_self]
        simp [hsh]
      · unfold borrowView
        rw [setSlot_ne _ _ _ hx, setSlot_ne _ _ _ hx]
        exact h x

/-- Releasing a handle list acts the same way on two registries with the
same borrow view. -/
lemma releaseAll_bv_congr (hs : List Handle) :
    ∀ {w w' : World}, (∀ x, borrowView w x = borrowView w' x) →
      ∀ x, borrowView (releaseAll hs w) x = borrowView (releaseAll hs w') x := by
  induction hs with
  | nil => intro w w' h x; exact h x
  | cons hd tl ih =>
    intro w w' h x
    show borrowView (Handle.release hd (releaseAll tl w)) x =
      borrowView (Handle.release hd (releaseAll tl w')) x
    exact release_bv_congr (fun y => ih h y) hd x

/-- An acquisition step fails identically on two registries with the same
borrow view. -/
lemma reqStep_error_congr {w w' : World} (h : ∀ x, borrowView w x = borrowView w' x)
    {r : AccessReq} {e : AccessError} (hstep : reqStep r w = .error e) :
    reqStep r w' = .error e := by
  cases r with
  | read t =>
    simp only [reqStep] at hstep ⊢
    rcases bv_cases h t with ⟨hw, hw'⟩ | ⟨s, s', hw, hw', hsh, hex⟩
    · unfold World.get at hstep ⊢
      rw [hw] at hstep
      rw [hw']
      exact hstep
    · unfold World.get at hstep ⊢
      rw [hw] at hstep
      rw [hw']
      dsimp only at hstep ⊢
      cases hx : s.exclusive with
      | false => rw [hx] at hstep; simp at hstep
      | true =>
        rw [hx] at hstep
        rw [← hex, hx]
        simpa using hstep
  | write t =>
    simp only [reqStep] at hstep ⊢
    rcases bv_cases h t with ⟨hw, hw'⟩ | ⟨s, s', hw, hw', hsh, hex⟩
    · unfold World.get_mut at hstep ⊢
      rw [hw] at hstep
      rw [hw']
      exact hstep
    · unfold World.get_mut at hstep ⊢
      rw [hw] at hstep
      rw [hw']
      dsimp only at hstep ⊢
      cases hx : (s.exclusive || s.shared != 0) with
      | false => rw [hx] at hstep; simp at hstep
      | true =>
        rw [hx] at hstep
        rw [← hex, ← hsh, hx]
        simpa using hstep

/-- An acquisition step succeeds identically (same handle, same borrow-view
evolution) on two registries with the same borrow view. -/
lemma reqStep_ok_congr {w w' : World} (h : ∀ x, borrowView w x = borrowView w' x)
    {r : AccessReq} {w1 : World} {h1 : Handle} (hstep : reqStep r w = .ok (w1, h1)) :
    ∃ w1', reqStep r w' = .ok (w1', h1) ∧
      ∀ x, borrowView w1 x = borrowView w1' x := by
  cases r with
  | read t =>
    simp only [reqStep] at hstep
    cases hg : World.get w t with
    | error e => rw [hg] at hstep; cases hstep
    | ok wg =>
      rw [hg] at hstep
      cases hstep
      obtain ⟨s, hs, hex, hwg⟩ := World.get_ok hg
      rcases bv_cases h t with ⟨hw, _⟩ | ⟨s0, s', hw, hw', hsh0, hex0⟩
      · rw [hs] at hw; cases hw
      · rw [hs] at hw
        cases hw
        have hg' : World.get w' t = .ok (w'.setSlot t ⟨s'.value, s'.shared + 1, s'.exclusive⟩) := by
          unfold World.get
          rw [hw']
          dsimp only
          rw [← hex0, hex]
          simp
        refine ⟨_, by rw [reqStep, hg'], ?_⟩
        intro x
        subst hwg
        by_cases hx : x = t
        · subst hx
          unfold borrowView
          rw [setSlot_self, setSlot_self]
          simp [hsh0, hex0]
        · unfold borrowView
          rw [setSlot_ne _ _ _ hx, setSlot_ne _ _ _ hx]
          exact h x
  | write t =>
    simp only [reqStep] at hstep
    cases hg : World.get_mut w t with
    | error e => rw [hg] at hstep; cases hstep
    | ok wg =>
      rw [hg] at hstep
      cases hstep
      obtain ⟨s, hs, hex, hsh, hwg⟩ := World.get_mut_ok hg
      rcases bv_cases h t with ⟨hw, _⟩ | ⟨s0, s', hw, hw', hsh0, hex0⟩
      · rw [hs] at hw; cases hw
      · rw [hs] at hw
        cases hw
        have hg' : World.get_mut w' t = .ok (w'.setSlot t ⟨s'.value, s'.shared, true⟩) := by
          unfold World.get_mut
          rw [hw']
          dsimp only
          rw [← hex0, hex, ← hsh0, hsh]
          simp
        refine ⟨_, by rw [reqStep, hg'], ?_⟩
        intro x
        subst hwg
        by_cases hx : x = t
        · subst hx
          unfold borrowView
          rw [setSlot_self, setSlot_self]
          simp [hsh0]
        · unfold borrowView
          rw [setSlot_ne _ _ _ hx, setSlot_ne _ _ _ hx]
          exact h x

/-- The acquisition loop returns the same handles and the same error on two
registries with the same borrow view, and the final borrow views agree. -/
lemma lockSeq_congr (reqs : List AccessReq) :
    ∀ (w w' : World) (locked : List Handle),
      (∀ x, borrowView w x = borrowView w' x) →
        (lockSeq reqs w locked).2 = (lockSeq reqs w' locked).2 ∧
          ∀ x, borrowView (lockSeq reqs w locked).1 x =
            borrowView (lockSeq reqs w' locked).1 x := by
  induction reqs with
  | nil => intro w w' locked h; exact ⟨rfl, h⟩
  | cons r rest ih =>
    intro w w' locked h
    simp only [lockSeq]
    cases hr : reqStep r w with
    | error e =>
      rw [reqStep_error_congr h hr]
      exact ⟨rfl, h⟩
    | ok p =>
      obtain ⟨w1, h1⟩ := p
      obtain ⟨w1', hstep', hbv⟩ := reqStep_ok_congr h hr
      rw [hstep']
      exact ih w1 w1' (locked ++ [h1]) hbv

/-! ### Acquisition succeeds on distinct free resources -/

/-- A successful acquisition step leaves every other resource's slot
untouched. -/
lemma reqStep_other {r : AccessReq} {w w' : World} {h : Handle}
    (hstep : reqStep r w = .ok (w', h)) {x : Nat} (hx : x ≠ reqTarget r) :
    w' x = w x := by
  cases r with
  | read t =>
    simp only [reqStep] at hstep
    cases hg : World.get w t with
    | error e => rw [hg] at hstep; cases hstep
    | ok wg =>
      rw [hg] at hstep
      cases hstep
      obtain ⟨s, _, _, hwg⟩ := World.get_ok hg
      subst hwg
      exact setSlot_ne _ _ _ hx
  | write t =>
    simp only [reqStep] at hstep
    cases hg : World.get_mut w t with
    | error e => rw [hg] at hstep; cases hstep
    | ok wg =>
      rw [hg] at hstep
      cases hstep
      obtain ⟨s, _, _, _, hwg⟩ := World.get_mut_ok hg
      subst hwg
      exact setSlot_ne _ _ _ hx

/-- A step on a free resource succeeds. -/
lemma reqStep_of_free {r : AccessReq} {w : World}
    (h : freeB w (reqTarget r) = true) :
    ∃ w' h', reqStep r w = .ok (w', h') := by
  cases r with
  | read t =>
    obtain ⟨v, hv⟩ := freeB_elim h
    simp only [reqTarget] at hv
    refine ⟨w.setSlot t ⟨v, 1, false⟩, Handle.shared t, ?_⟩
    simp [reqStep, get_of_free hv]
  | write t =>
    obtain ⟨v, hv⟩ := freeB_elim h
    simp only [reqTarget] at hv
    refine ⟨w.setSlot t ⟨v, 0, true⟩, Handle.exclusive t, ?_⟩
    simp [reqStep, get_mut_of_free hv]

/-- If the targets of a request sequence are pairwise distinct and all free,
the whole acquisition loop succeeds. -/
lemma lockSeq_success_of_free (reqs : List AccessReq) :
    ∀ (w : World) (locked : List Handle),
      (reqs.map reqTarget).Nodup →
      (∀ t ∈ reqs.map reqTarget, freeB w t = true) →
      (lockSeq reqs w locked).2.2 = none := by
  induction reqs with
  | nil => intro w locked _ _; rfl
  | cons r rest ih =>
    intro w locked hnd hfree
    simp only [List.map_cons, List.nodup_cons] at hnd
    obtain ⟨w', h', hstep⟩ := reqStep_of_free (hfree (reqTarget r) (by simp))
    simp only [lockSeq]
    rw [hstep]
    refine ih w' (locked ++ [h']) hnd.2 ?_
    intro t ht
    have hne : t ≠ reqTarget r := by
      intro he
      exact hnd.1 (he ▸ ht)
    have hsame : w' t = w t := reqStep_other hstep hne
    unfold freeB
    rw [hsame]
    have hf := hfree t (by rw [List.map_cons]; exact List.mem_cons_of_mem _ ht)
    unfold freeB at hf
    exact hf

/-! ### Behavior of the generated `run_fn` -/

/-- On acquisition failure, `run_fn` drops the handles acquired so far,
restoring the registry exactly, never invokes the wrapped function, and
reports the acquisition error. -/
lemma runSystem_of_lock_error {rs ws : List Nat} {f : SysFun} {w w1 : World}
    {hs : List Handle} {e : AccessError}
    (hl : lockAll rs ws w [] = (w1, hs, some e)) :
    runSystem rs ws f w = (w, some (RunError.acquisition e)) := by
  have hseq : lockSeq (rs.map AccessReq.read ++ ws.map AccessReq.write) w [] = (w1, hs, some e) := by
    rw [← lockAll_eq_lockSeq]; exact hl
  obtain ⟨hs', hl', hrel⟩ := lockSeq_restore _ w [] w1 hs (some e) hseq
  simp only [List.nil_append] at hl'
  subst hl'
  unfold runSystem
  rw [hl]
  dsimp only
  rw [hrel]

/-- On acquisition success, `run_fn` applies the wrapped function once to
the current values of the read and write parameters (in declaration order),
writes the function's final write-parameter values back, drops all handles,
and returns the function's own result. -/
lemma runSystem_of_lock_ok {rs ws : List Nat} {f : SysFun} {w w1 : World}
    {hs : List Handle}
    (hl : lockAll rs ws w [] = (w1, hs, none)) :
    runSystem rs ws f w =
      (releaseAll hs (writeBack w1 ws (f (readValues w rs) (readValues w ws)).1),
        (f (readValues w rs) (readValues w ws)).2.map RunError.application) := by
  have hseq : lockSeq (rs.map AccessReq.read ++ ws.map AccessReq.write) w [] = (w1, hs, none) := by
    rw [← lockAll_eq_lockSeq]; exact hl
  have hval : ∀ x, (w1 x).map Slot.value = (w x).map Slot.value := by
    intro x
    have := lockSeq_values (rs.map AccessReq.read ++ ws.map AccessReq.write) w [] x
    rw [hseq] at this
    exact this
  have hreadv : ∀ ts : List Nat, readValues w1 ts = readValues w ts := by
    intro ts
    unfold readValues
    refine List.map_congr_left ?_
    intro t _
    have hv := hval t
    cases hw1 : w1 t with
    | none =>
      cases hw : w t with
      | none => rfl
      | some s => rw [hw1, hw] at hv; simp at hv
    | some s1 =>
      cases hw : w t with
      | none => rw [hw1, hw] at hv; simp at hv
      | some s =>
        rw [hw1, hw] at hv
        simp at hv
        simp [hv]
  unfold runSystem
  rw [hl]
  dsimp only
  rw [hreadv, hreadv]

/-- `run_fn` restores every borrow counter (and every resource's presence)
to its pre-call state, on every exit path. -/
lemma runSystem_bv (rs ws : List Nat) (f : SysFun) (w : World) (x : Nat) :
    borrowView ((runSystem rs ws f w).1) x = borrowView w x := by
  cases hl : lockAll rs ws w [] with
  | mk w1 p =>
    obtain ⟨hs, r⟩ := p
    have hseq : lockSeq (rs.map AccessReq.read ++ ws.map AccessReq.write) w []
        = (w1, hs, r) := by
      rw [← lockAll_eq_lockSeq]; exact hl
    obtain ⟨hs', hl', hrel⟩ := lockSeq_restore _ w [] w1 hs r hseq
    simp only [List.nil_append] at hl'
    subst hl'
    cases r with
    | some e =>
      rw [runSystem_of_lock_error hl]
    | none =>
      unfold runSystem
      rw [hl]
      dsimp only
      have h1 : ∀ y, borrowView (writeBack w1 ws (f (readValues w1 rs) (readValues w1 ws)).1) y
          = borrowView w1 y := fun y => writeBack_bv ws _ w1 y
      rw [releaseAll_bv_congr hs h1 x, hrel]

/-- The outcome of `lock` (handles and error) depends only on the borrow
view of the registry, not on resource values. -/
lemma lockAll_congr (rs ws : List Nat) {w w' : World}
    (h : ∀ x, borrowView w x = borrowView w' x) (locked : List Handle) :
    (lockAll rs ws w locked).2 = (lockAll rs ws w' locked).2 := by
  rw [lockAll_eq_lockSeq, lockAll_eq_lockSeq]
  exact (lockSeq_congr _ w w' locked h).1

/-! ### Lemmas about lazy resource insertion -/

/-- Ensuring a default never touches an existing slot. -/
lemma initResource_preserves {w : World} {t' : Nat} {s : Slot} (t : Nat)
    (h : w t' = some s) : (w.initResource t) t' = some s := by
  unfold World.initResource
  cases hw : w t with
  | some s0 => exact h
  | none =>
    dsimp only
    by_cases hx : t' = t
    · subst hx; rw [h] at hw; cases hw
    · rw [setSlot_ne _ _ _ hx]; exact h

/-- A fold of defaults never touches an existing slot. -/
lemma initFold_preserves (ts : List Nat) :
    ∀ (w : World) {t' : Nat} {s : Slot}, w t' = some s →
      (ts.foldl World.initResource w) t' = some s := by
  induction ts with
  | nil => intro w t' s h; exact h
  | cons t ts ih => intro w t' s h; exact ih _ (initResource_preserves t h)

/-- After ensuring a default, the slot is present. -/
lemma initResource_isSome (w : World) (t : Nat) : ((w.initResource t) t).isSome := by
  unfold World.initResource
  cases hw : w t with
  | some s => dsimp only; rw [hw]; rfl
  | none => dsimp only; rw [setSlot_self]; rfl

/-- A fold of defaults keeps every present slot present. -/
lemma initFold_isSome (ts : List Nat) :
    ∀ (w : World) {t' : Nat}, (w t').isSome → ((ts.foldl World.initResource w) t').isSome := by
  intro w t' h
  obtain ⟨s, hs⟩ := Option.isSome_iff_exists.mp h
  rw [initFold_preserves ts w hs]
  rfl

/-- After the fold, every listed type is present. -/
lemma initFold_present (ts : List Nat) :
    ∀ (w : World) (t : Nat), t ∈ ts → ((ts.foldl World.initResource w) t).isSome := by
  induction ts with
  | nil => intro w t h; cases h
  | cons t0 ts ih =>
    intro w t h
    rcases List.mem_cons.mp h with he | hm
    · subst he
      exact initFold_isSome ts (w.initResource t) (initResource_isSome w t)
    · exact ih (w.initResource t0) t hm

/-- Ensuring a default for a present type is a no-op. -/
lemma initResource_noop {w : World} {t : Nat} (h : (w t).isSome) :
    w.initResource t = w := by
  unfold World.initResource
  split
  · rfl
  · rename_i hw; rw [hw] at h; cases h

/-- Folding defaults over types that are all present is a no-op. -/
lemma initFold_noop (ts : List Nat) :
    ∀ (w : World), (∀ t ∈ ts, (w t).isSome) → ts.foldl World.initResource w = w := by
  induction ts with
  | nil => intro w _; rfl
  | cons t ts ih =>
    intro w h
    show ts.foldl World.initResource (w.initResource t) = w
    rw [initResource_noop (h t (by simp))]
    exact ih w fun t' ht' => h t' (List.mem_cons_of_mem _ ht')

/-! ### Lemmas about the macro expansion -/

/-- `impl_system_muts!` realizes every split of its idents: for each
`j ≤ rem.length` it emits a shape with `rem.length - j` reads and
`processed.length + j` writes. -/
lemma implSystemMuts_mem (rem : List String) :
    ∀ (processed : List String) (j : Nat), j ≤ rem.length →
      ∃ p ∈ implSystemMuts processed rem,
        p.1.length = rem.length - j ∧ p.2.length = processed.length + j := by
  induction rem with
  | nil =>
    intro processed j hj
    have hj0 : j = 0 := Nat.le_zero.mp hj
    subst hj0
    exact ⟨([], processed), by simp [implSystemMuts]⟩
  | cons head tail ih =>
    intro processed j hj
    cases j with
    | zero =>
      refine ⟨(tail ++ [head], processed), ?_, ?_, ?_⟩
      · simp [implSystemMuts]
      · simp
      · simp
    | succ j' =>
      have hj' : j' ≤ tail.length := by
        simp only [List.length_cons] at hj
        omega
      obtain ⟨p, hp, h1, h2⟩ := ih (processed ++ [head]) j' hj'
      refine ⟨p, ?_, ?_, ?_⟩
      · simp only [implSystemMuts, List.mem_cons]
        exact .inr hp
      · simp only [List.length_cons]
        omega
      · simp only [List.length_append, List.length_singleton] at h2
        omega

/-- `impl_systems!` realizes every nonempty shape whose total arity is at
most the number of idents. -/
lemma implSystems_mem (idents : List String) :
    ∀ n m : Nat, 0 < n + m → n + m ≤ idents.length →
      ∃ p ∈ implSystems idents, p.1.length = n ∧ p.2.length = m := by
  induction idents with
  | nil =>
    intro n m h0 hle
    simp only [List.length_nil] at hle
    omega
  | cons head tail ih =>
    intro n m h0 hle
    by_cases he : n + m = tail.length + 1
    · obtain ⟨p, hp, h1, h2⟩ := implSystemMuts_mem (head :: tail) [] m
        (by simp only [List.length_cons]; omega)
      refine ⟨p, ?_, ?_, ?_⟩
      · simp only [implSystems]
        exact List.mem_append_left _ hp
      · simp only [List.length_cons] at h1
        omega
      · simpa using h2
    · have hle' : n + m ≤ tail.length := by
        simp only [List.length_cons] at hle
        omega
      obtain ⟨p, hp, h1, h2⟩ := ih n m h0 hle'
      refine ⟨p, ?_, h1, h2⟩
      simp only [implSystems]
      exact List.mem_append_right _ hp

/-- Every shape emitted by `impl_system_muts!` has total arity equal to the
number of idents it was invoked with. -/
lemma implSystemMuts_arity (rem : List String) :
    ∀ (processed : List String) (p : List String × List String),
      p ∈ implSystemMuts processed rem →
        p.1.length + p.2.length = processed.length + rem.length := by
  induction rem with
  | nil =>
    intro processed p hp
    simp only [implSystemMuts, List.mem_singleton] at hp
    subst hp
    simp
  | cons head tail ih =>
    intro processed p hp
    simp only [implSystemMuts, List.mem_cons] at hp
    rcases hp with he | hm
    · subst he
      simp only [List.length_append, List.length_singleton, List.length_cons, List.length_nil]
      omega
    · have := ih (processed ++ [head]) p hm
      simp only [List.length_append, List.length_singleton, List.length_cons, List.length_nil] at this ⊢
      omega

/-- Every shape emitted by `impl_systems!` has total arity between 1 and the
number of idents. -/
lemma implSystems_arity (idents : List String) :
    ∀ p ∈ implSystems idents,
      1 ≤ p.1.length + p.2.length ∧ p.1.length + p.2.length ≤ idents.length := by
  induction idents with
  | nil => intro p hp; cases hp
  | cons head tail ih =>
    intro p hp
    simp only [implSystems] at hp
    rcases List.mem_append.mp hp with hl | hr
    · have := implSystemMuts_arity (head :: tail) [] p hl
      simp only [List.length_nil, List.length_cons] at this
      simp only [List.length_cons]
      omega
    · have := ih p hr
      simp only [List.length_cons]
      omega

/-! ### The claims -/

/-- C1: for every shape of N read parameters followed by M write parameters,
the converted System's `lock` issues its acquisition requests in a fixed
order — N shared requests for the read types in declaration order, then M
exclusive requests for the write types in declaration order — and its
initialization operation ensures defaults for the same types in the same
read-then-write, left-to-right order. -/
theorem lock_requests_follow_declaration_order (rs ws : List Nat) (f : SysFun)
    (nm : String) (w : World) (locked : List Handle) :
    (mkSystem rs ws f nm).lock w locked =
      lockSeq (rs.map AccessReq.read ++ ws.map AccessReq.write) w locked ∧
    (mkSystem rs ws f nm).init w = (rs ++ ws).foldl World.initResource w := by
  constructor
  · exact lockAll_eq_lockSeq rs ws w locked
  · show ws.foldl World.initResource (rs.foldl World.initResource w) = _
    rw [List.foldl_append]

/-- C2 counterexample: a single `lock` call against `cexWorld` (type 0
present and unborrowed, type 1 absent) fails with `NotInitialized 1`, yet
the handle for type 0 obtained earlier in that same call survives in the
caller's vector and its shared-borrow counter stays incremented (1, versus 0
before the call) — so the failed call is not all-or-nothing and does not
drop earlier handles before returning the error. -/
theorem lock_partial_acquisition_survives_cex :
    ((mkSystem [0, 1] [] (fun _ _ => ([], none)) "cex").lock cexWorld []).2.2
        = some (AccessError.notInitialized 1) ∧
    ((mkSystem [0, 1] [] (fun _ _ => ([], none)) "cex").lock cexWorld []).2.1
        = [Handle.shared 0] ∧
    ((mkSystem [0, 1] [] (fun _ _ => ([], none)) "cex").lock cexWorld []).1 0
        = some ⟨7, 1, false⟩ ∧
    cexWorld 0 = some ⟨7, 0, false⟩ :=
  ⟨rfl, rfl, rfl, rfl⟩

/-- C2 (amended): when any request fails, `lock` stops at the first failing
request and returns the error; the handles obtained earlier in that same
call are not dropped — they remain appended to the caller's vector with
their borrows still held (releasing exactly those handles is what would
restore the registry to its pre-call state, and is left to the caller). -/
theorem lock_failure_keeps_earlier_handles (rs ws : List Nat) (f : SysFun) (nm : String)
    (w w' : World) (locked l' : List Handle) (e : AccessError)
    (h : (mkSystem rs ws f nm).lock w locked = (w', l', some e)) :
    ∃ hs, l' = locked ++ hs ∧ releaseAll hs w' = w := by
  have h' : lockSeq (rs.map AccessReq.read ++ ws.map AccessReq.write) w locked
      = (w', l', some e) := by
    rw [← lockAll_eq_lockSeq]; exact h
  exact lockSeq_restore _ w locked w' l' (some e) h'

/-- C2 witness: the amended statement applied at the concrete failing call. -/
theorem lock_failure_keeps_earlier_handles_witness :
    (mkSystem [0, 1] [] (fun _ _ => ([], none)) "cexw").lock cexWorld []
        = (cexW1, [Handle.shared 0], some (AccessError.notInitialized 1)) ∧
    ∃ hs, [Handle.shared 0] = [] ++ hs ∧ releaseAll hs cexW1 = cexWorld :=
  ⟨rfl, lock_failure_keeps_earlier_handles [0, 1] [] (fun _ _ => ([], none)) "cexw"
    cexWorld cexW1 [] [Handle.shared 0] (AccessError.notInitialized 1) rfl⟩

/-- C3: against a registry in which all declared (pairwise distinct)
resource types are present and unborrowed, `run` invokes the wrapped
function once on the current values of its parameters in declaration order
(reads first, then writes) and returns the function's own result; in
particular, in the spec's scenario — `(read A, write B)` against defaults,
the function setting `B.x = 45` — reading `B` afterwards yields 45 with its
borrows released, and `run` returns success. -/
theorem run_applies_function_once_in_order (rs ws : List Nat) (f : SysFun) (nm : String)
    (w : World) (hnd : (rs ++ ws).Nodup)
    (hfree : ∀ t ∈ rs ++ ws, freeB w t = true) :
    ((mkSystem rs ws f nm).run w).2
        = (f (readValues w rs) (readValues w ws)).2.map RunError.application ∧
    ((mkSystem [0] [1] (fun _ _ => ([45], none)) "scenario").run scenarioWorld).1 1
        = some ⟨45, 0, false⟩ ∧
    ((mkSystem [0] [1] (fun _ _ => ([45], none)) "scenario").run scenarioWorld).2
        = none := by
  refine ⟨?_, rfl, rfl⟩
  have htar : (rs.map AccessReq.read ++ ws.map AccessReq.write).map reqTarget = rs ++ ws := by
    rw [List.map_append, List.map_map, List.map_map]
    have h1 : reqTarget ∘ AccessReq.read = id := rfl
    have h2 : reqTarget ∘ AccessReq.write = id := rfl
    rw [h1, h2, List.map_id, List.map_id]
  have hsucc : (lockSeq (rs.map AccessReq.read ++ ws.map AccessReq.write) w []).2.2 = none :=
    lockSeq_success_of_free _ w [] (by rw [htar]; exact hnd)
      (by rw [htar]; exact hfree)
  cases hl : lockAll rs ws w [] with
  | mk w1 p =>
    obtain ⟨hs, r⟩ := p
    have hr : r = none := by
      have := hsucc
      rw [← lockAll_eq_lockSeq, hl] at this
      exact this
    subst hr
    show (runSystem rs ws f w).2 = _
    rw [runSystem_of_lock_ok hl]

/-- C3 witness: the theorem applied at the scenario inputs. -/
theorem run_applies_function_once_in_order_witness :
    (([0] ++ [1] : List Nat)).Nodup ∧
    (∀ t ∈ ([0] ++ [1] : List Nat), freeB scenarioWorld t = true) ∧
    ((mkSystem [0] [1] (fun _ _ => ([45], none)) "scenario").run scenarioWorld).2
        = ((fun (_ _ : List Nat) => (([45] : List Nat), (none : Option Nat)))
            (readValues scenarioWorld [0]) (readValues scenarioWorld [1])).2.map
              RunError.application :=
  ⟨by decide, by decide,
    (run_applies_function_once_in_order [0] [1] (fun _ _ => ([45], none)) "scenario"
      scenarioWorld (by decide) (by decide)).1⟩

/-- C4: when acquisition fails inside `run`, the returned error is the
acquisition variant, which is distinguishable from (never equal to) any
application-error variant raised by the wrapped function. -/
theorem run_error_distinguishes_acquisition (rs ws : List Nat) (f : SysFun) (nm : String)
    (w w1 : World) (hs : List Handle) (e : AccessError)
    (hl : lockAll rs ws w [] = (w1, hs, some e)) :
    ((mkSystem rs ws f nm).run w).2 = some (RunError.acquisition e) ∧
    ∀ e' : Nat, RunError.acquisition e ≠ RunError.application e' := by
  constructor
  · show (runSystem rs ws f w).2 = _
    rw [runSystem_of_lock_error hl]
  · intro e' hcontra
    cases hcontra

/-- C4 witness: the theorem applied at a concrete failing acquisition. -/
theorem run_error_distinguishes_acquisition_witness :
    lockAll [0, 1] [] cexWorld []
        = (cexW1, [Handle.shared 0], some (AccessError.notInitialized 1)) ∧
    ((mkSystem [0, 1] [] (fun _ _ => ([], none)) "c4").run cexWorld).2
        = some (RunError.acquisition (AccessError.notInitialized 1)) :=
  ⟨rfl, (run_error_distinguishes_acquisition [0, 1] [] (fun _ _ => ([], none)) "c4"
    cexWorld cexW1 [Handle.shared 0] (AccessError.notInitialized 1) rfl).1⟩

/-- C5: `run` releases every handle it acquired before returning, on every
exit path: afterwards every resource's presence and borrow counters are
exactly as before the call, and a subsequent `lock` of the same declared
types by any caller returns the same handles and the same error as it would
have before the `run` call (in particular it succeeds whenever it would have
succeeded before). -/
theorem run_releases_all_handles (rs ws : List Nat) (f : SysFun) (nm : String) (w : World) :
    (∀ x, borrowView (((mkSystem rs ws f nm).run w).1) x = borrowView w x) ∧
    ∀ locked, ((mkSystem rs ws f nm).lock (((mkSystem rs ws f nm).run w).1) locked).2
      = ((mkSystem rs ws f nm).lock w locked).2 := by
  constructor
  · intro x
    exact runSystem_bv rs ws f w x
  · intro locked
    exact lockAll_congr rs ws (fun x => runSystem_bv rs ws f w x) locked

/-- C6: the initialization operation inserts a default only for absent
declared types; it never overwrites an existing instance, and running it a
second time on the same registry changes nothing. -/
theorem ensure_defaults_idempotent_never_overwrites (rs ws : List Nat) (f : SysFun)
    (nm : String) (w : World) :
    (mkSystem rs ws f nm).init ((mkSystem rs ws f nm).init w)
        = (mkSystem rs ws f nm).init w ∧
    ∀ t s, w t = some s → ((mkSystem rs ws f nm).init w) t = some s := by
  have hinit : ∀ v : World,
      (mkSystem rs ws f nm).init v = (rs ++ ws).foldl World.initResource v := by
    intro v
    show ws.foldl World.initResource (rs.foldl World.initResource v) = _
    rw [List.foldl_append]
  constructor
  · rw [hinit, hinit]
    exact initFold_noop _ _ fun t ht => initFold_present _ w t ht
  · intro t s hts
    rw [hinit]
    exact initFold_preserves _ w hts

/-- C6 witness: the theorem applied at a concrete registry with an existing
borrowed instance at type 5. -/
theorem ensure_defaults_idempotent_witness :
    (mkSystem [0] [1] (fun _ _ => ([], none)) "c6").init
        ((mkSystem [0] [1] (fun _ _ => ([], none)) "c6").init w6)
      = (mkSystem [0] [1] (fun _ _ => ([], none)) "c6").init w6 ∧
    w6 5 = some ⟨9, 2, true⟩ ∧
    ((mkSystem [0] [1] (fun _ _ => ([], none)) "c6").init w6) 5 = some ⟨9, 2, true⟩ :=
  ⟨(ensure_defaults_idempotent_never_overwrites [0] [1] (fun _ _ => ([], none)) "c6" w6).1,
    rfl,
    (ensure_defaults_idempotent_never_overwrites [0] [1] (fun _ _ => ([], none)) "c6" w6).2
      5 ⟨9, 2, true⟩ rfl⟩

/-- C7: the macro expansion emits an implementation for every split of N
reads followed by M writes with `N + M ≤ 12` in the default configuration,
and with `N + M ≤ 21` — not 22 — under `big_systems`: every `big_systems`
shape has at most 21 parameters, contradicting the trait documentation's
stated maximum of 22.  Every emitted conversion yields a `System` carrying
all three operations and a name. -/
theorem conversion_shapes_cover_12_and_only_21_big :
    (∀ n m : Nat, n + m ≤ 12 →
      ∃ p ∈ allShapes identList12, p.1.length = n ∧ p.2.length = m) ∧
    (∀ n m : Nat, n + m ≤ 21 →
      ∃ p ∈ allShapes identListBig, p.1.length = n ∧ p.2.length = m) ∧
    (∀ p ∈ allShapes identListBig, p.1.length + p.2.length ≤ 21) ∧
    (∀ (rs ws : List Nat) (f : SysFun) (nm : String), (mkSystem rs ws f nm).name = nm) := by
  have hcover : ∀ (idents : List String) (n m : Nat), n + m ≤ idents.length →
      ∃ p ∈ allShapes idents, p.1.length = n ∧ p.2.length = m := by
    intro idents n m hle
    by_cases h0 : n + m = 0
    · have hn : n = 0 := by omega
      have hm : m = 0 := by omega
      subst hn; subst hm
      exact ⟨([], []), by simp [allShapes]⟩
    · obtain ⟨p, hp, h1, h2⟩ := implSystems_mem idents n m (by omega) hle
      exact ⟨p, by simp only [allShapes, List.mem_cons]; exact .inr hp, h1, h2⟩
  refine ⟨fun n m h => hcover identList12 n m h, fun n m h => hcover identListBig n m h,
    ?_, fun rs ws f nm => rfl⟩
  intro p hp
  simp only [allShapes, List.mem_cons] at hp
  rcases hp with he | hm
  · subst he; simp
  · exact (implSystems_arity identListBig p hm).2

/-- C7 witness: the coverage statements applied at concrete splits, and the
arity bound applied at a concrete emitted shape. -/
theorem conversion_shapes_cover_witness :
    (5 + 7 ≤ 12 ∧ ∃ p ∈ allShapes identList12, p.1.length = 5 ∧ p.2.length = 7) ∧
    (10 + 11 ≤ 21 ∧ ∃ p ∈ allShapes identListBig, p.1.length = 10 ∧ p.2.length = 11) ∧
    (([], []) ∈ allShapes identListBig ∧
      (([] : List String)).length + (([] : List String)).length ≤ 21) :=
  ⟨⟨by decide, (conversion_shapes_cover_12_and_only_21_big.1 5 7 (by decide))⟩,
    ⟨by decide, (conversion_shapes_cover_12_and_only_21_big.2.1 10 11 (by decide))⟩,
    ⟨List.mem_cons_self _ _,
      conversion_shapes_cover_12_and_only_21_big.2.2.1 ([], []) (List.mem_cons_self _ _)⟩⟩

/-- C8: when acquisition fails inside `run`, the wrapped function is never
invoked — the result does not depend on `f` at all — and the registry is
returned exactly unchanged, together with the acquisition error. -/
theorem acquisition_failure_never_runs_fn (rs ws : List Nat) (f : SysFun) (nm : String)
    (w w1 : World) (hs : List Handle) (e : AccessError)
    (hl : lockAll rs ws w [] = (w1, hs, some e)) :
    (mkSystem rs ws f nm).run w = (w, some (RunError.acquisition e)) := by
  show runSystem rs ws f w = _
  exact runSystem_of_lock_error hl

/-- C8 witness: the theorem applied at a concrete failing acquisition, with
a function that would visibly change values and error if it ran. -/
theorem acquisition_failure_never_runs_fn_witness :
    lockAll [0, 1] [] cexWorld []
        = (cexW1, [Handle.shared 0], some (AccessError.notInitialized 1)) ∧
    (mkSystem [0, 1] [] (fun _ _ => ([99], some 3)) "c8").run cexWorld
        = (cexWorld, some (RunError.acquisition (AccessError.notInitialized 1))) :=
  ⟨rfl, acquisition_failure_never_runs_fn [0, 1] [] (fun _ _ => ([99], some 3)) "c8"
    cexWorld cexW1 [Handle.shared 0] (AccessError.notInitialized 1) rfl⟩

/-- C9: a successful `lock` call appends exactly one handle per declared
parameter — the shared handles of the read types in declaration order, then
the exclusive handles of the write types in declaration order — to the end
of the caller-supplied vector, leaving whatever the vector already held in
place, unmodified. -/
theorem lock_appends_handles_in_order (rs ws : List Nat) (f : SysFun) (nm : String)
    (w : World) (locked : List Handle)
    (h : ((mkSystem rs ws f nm).lock w locked).2.2 = none) :
    ((mkSystem rs ws f nm).lock w locked).2.1
      = locked ++ (rs.map Handle.shared ++ ws.map Handle.exclusive) := by
  have h' : (lockSeq (rs.map AccessReq.read ++ ws.map AccessReq.write) w locked).2.2
      = none := by
    rw [← lockAll_eq_lockSeq]; exact h
  have hh := lockSeq_success_handles _ w locked h'
  show (lockAll rs ws w locked).2.1 = _
  rw [lockAll_eq_lockSeq, hh]
  congr 1
  rw [List.map_append, List.map_map, List.map_map]
  rfl

/-- C9 witness: the theorem applied at a concrete successful call with a
nonempty prior vector. -/
theorem lock_appends_handles_in_order_witness :
    ((mkSystem [0] [1] (fun _ _ => ([], none)) "c9").lock w9 [Handle.exclusive 7]).2.2
        = none ∧
    ((mkSystem [0] [1] (fun _ _ => ([], none)) "c9").lock w9 [Handle.exclusive 7]).2.1
        = [Handle.exclusive 7] ++ ([0].map Handle.shared ++ [1].map Handle.exclusive) :=
  ⟨rfl, lock_appends_handles_in_order [0] [1] (fun _ _ => ([], none)) "c9"
    w9 [Handle.exclusive 7] rfl⟩

/-- C10: a zero-parameter function converts to a System whose initialization
leaves the registry untouched, whose `lock` appends no handles and always
succeeds, and whose `run` simply invokes the function and returns its
result, leaving the registry untouched. -/
theorem zero_param_system (f : SysFun) (nm : String) (w : World) (locked : List Handle) :
    (mkSystem [] [] f nm).init w = w ∧
    (mkSystem [] [] f nm).lock w locked = (w, locked, none) ∧
    (mkSystem [] [] f nm).run w = (w, (f [] []).2.map RunError.application) :=
  ⟨rfl, rfl, rfl⟩

end WorldDispatcher
